import Mathlib

/-!
Verification of the SEEDS dashboard's computational core against its
specification.  The Python source (`home.py`, `topics.py`) is shallowly
embedded: scores that went through Python's `float()` are values of
`RawScore` carrying their conversion result, topic numbers that went
through `int()` are values of `RawTopicNum`, pandas tables are lists of
rows, and fallible builds return `Except Unit`.
-/

deriving instance DecidableEq for Except

/-- Lexicographic comparison of character lists by code point, the order
Python's `sorted` uses on strings. -/
def charListLe : List Char → List Char → Bool
  | [], _ => true
  | _ :: _, [] => false
  | a :: as, b :: bs => if a = b then charListLe as bs else decide (a < b)

/-- Python's `<=` on strings: lexicographic by code point. -/
def strLe (a b : String) : Prop := charListLe a.data b.data = true

instance : DecidableRel strLe := fun a b => by unfold strLe; infer_instance

/-- Result of applying Python's `float()` to a keyword score taken from
`topic_data.json`: `val? = some q` when the conversion succeeds with value
`q`, and `val? = none` when it raises (a malformed score). -/
structure RawScore where
  val? : Option ℚ
deriving DecidableEq, Repr

/-- Result of applying Python's `int()` to a present `topic_number` value:
`toInt? = some n` when the conversion succeeds, `none` when it raises. -/
structure RawTopicNum where
  toInt? : Option ℤ
deriving DecidableEq, Repr

/-- One record of `topic_data.json` as consumed by `_build_topic_matrix`:
`topic_number` is `none` when the key is absent (Python `dict.get` returns
`None`), and `keywords` is the list of `(term, score)` pairs. -/
structure TopicItem where
  topic_number : Option RawTopicNum
  keywords : List (String × RawScore)
deriving DecidableEq, Repr, Inhabited

/-- All keyword terms appearing across the input records, in order
(the multiset that `home.py` line 40 feeds into its set comprehension). -/
def allTerms (topic_data : List TopicItem) : List String :=
  (topic_data.map (fun item => item.keywords.map Prod.fst)).flatten

/-- `vocab = sorted({kw for item in topic_data for kw, _ in item.get("keywords", [])})`
of `home.py` line 40: distinct terms in ascending lexicographic order. -/
def vocabOf (topic_data : List TopicItem) : List String :=
  (allTerms topic_data).dedup.insertionSort strLe

/-- `float(score)` with the surrounding `try/except` of `home.py`
lines 54-57: a malformed score is coerced to `0.0`. -/
def parseScore (s : RawScore) : ℚ := s.val?.getD 0

/-- One iteration of the inner loop of `_build_topic_matrix`
(`home.py` lines 52-57): `if kw in idx: vec[idx[kw]] = float(score) | 0.0`.
`idx` maps each vocabulary term to its position, so `idx[kw]` is the index
of `kw` in `vocab`. -/
def stepVec (vocab : List String) (vec : List ℚ) (p : String × RawScore) : List ℚ :=
  if p.1 ∈ vocab then vec.set (vocab.indexOf p.1) (parseScore p.2) else vec

/-- The keyword vector of one topic record (`home.py` lines 50-57):
start from `np.zeros(len(vocab))` and run the inner loop over the
record's keyword list. -/
def buildVec (vocab : List String) (kws : List (String × RawScore)) : List ℚ :=
  kws.foldl (stepVec vocab) (List.replicate vocab.length 0)

/-- The display string `", ".join([kw for kw, _ in kws[:5]]) if kws else ""`
of `home.py` line 60. -/
def top5String (kws : List (String × RawScore)) : String :=
  if kws.isEmpty then "" else String.intercalate ", " ((kws.take 5).map Prod.fst)

/-- The main loop of `_build_topic_matrix` (`home.py` lines 45-60): records
without a `topic_number` are skipped; `int(t)` raising on a present but
unconvertible `topic_number` aborts the whole build (modelled as
`Except.error ()`); otherwise the record contributes its keyword vector,
its integer topic id and its top-5 display string, in input order. -/
def buildLoop (vocab : List String) :
    List TopicItem → Except Unit (List (List ℚ) × List ℤ × List String)
  | [] => Except.ok ([], [], [])
  | item :: rest =>
    match item.topic_number with
    | none => buildLoop vocab rest
    | some t =>
      match t.toInt? with
      | none => Except.error ()
      | some n =>
        match buildLoop vocab rest with
        | Except.error e => Except.error e
        | Except.ok (rows, ids, tops) =>
          Except.ok (buildVec vocab item.keywords :: rows, n :: ids,
                     top5String item.keywords :: tops)

/-- `_build_topic_matrix` of `home.py` lines 39-63.  The matrix is a list
of rows (each row a list of cells, one per vocabulary term); with an empty
vocabulary the function returns the explicit empty result before entering
the loop (`home.py` lines 41-42). -/
def _build_topic_matrix (topic_data : List TopicItem) :
    Except Unit (List (List ℚ) × List ℤ × List String) :=
  let vocab := vocabOf topic_data
  if vocab.isEmpty then Except.ok ([], [], [])
  else buildLoop vocab topic_data

/-- The records of the input that contribute rows: those whose
`topic_number` key is present. -/
def keptItems (topic_data : List TopicItem) : List TopicItem :=
  topic_data.filter (fun item => item.topic_number.isSome)

example :
    _build_topic_matrix
      [⟨some ⟨some 1⟩, [("b", ⟨some 2⟩), ("a", ⟨none⟩)]⟩,
       ⟨none, [("c", ⟨some 5⟩)]⟩,
       ⟨some ⟨some 7⟩, []⟩] =
    Except.ok ([[0, 2, 0], [0, 0, 0]], [1, 7], ["b, a", ""]) := by decide

/-- The `topics.csv` table as seen by `_topic_sizes` (`home.py` lines 66-69):
one row per record, keeping the `Topic` id and the value of the count column
chosen there (`Frequency` when present, otherwise the last column).
`rows = []` models `topics_df.empty`. -/
structure TopicsDF where
  rows : List (ℤ × ℚ)
deriving DecidableEq, Repr

/-- The `blogs.csv` table as seen by `_topic_sizes` (`home.py` lines 70-72):
`nrows` is the number of rows (`blogs_df.empty` iff `nrows = 0`) and
`topic_label` holds the values of the `topic_label` column when that
column exists. -/
structure BlogsDF where
  nrows : ℕ
  topic_label : Option (List String)
deriving DecidableEq, Repr

/-- `topics_df.groupby("Topic")[count_col].sum().get(t, 1.0)` of
`home.py` lines 68-69: the summed count for topic `t` when `t` occurs in
the table (even when that sum is `0`), and the default `1.0` otherwise. -/
def totalsGet (rows : List (ℤ × ℚ)) (t : ℤ) : ℚ :=
  if (rows.map Prod.fst).contains t
  then ((rows.filter (fun r => r.1 == t)).map Prod.snd).sum
  else 1

/-- `blogs_df["topic_label"].value_counts().get(lbl, 1.0)` of `home.py`
lines 71-72: the number of documents carrying `lbl` when at least one
does (`value_counts` has no zero entries), and the default `1.0`
otherwise. -/
def valueCountsGet (xs : List String) (x : String) : ℚ :=
  if xs.contains x then (xs.count x : ℚ) else 1

/-- `labels_map.get(str(t), str(t))` of `home.py` line 72, the label map
being the JSON object of `topic_labels.json` (stringified id → label). -/
def labelFor (labels_map : List (String × String)) (t : ℤ) : String :=
  (labels_map.lookup (toString t)).getD (toString t)

/-- The raw-popularity computation of `_topic_sizes` (`home.py` lines
66-74): the frequency table when it is nonempty, else per-document label
counts when `blogs_df` is nonempty and has a `topic_label` column, else
uniform `1.0`. -/
def rawPopularity (topic_ids : List ℤ) (topics_df : TopicsDF) (blogs_df : BlogsDF)
    (labels_map : List (String × String)) : List ℚ :=
  if ¬ topics_df.rows.isEmpty then
    topic_ids.map (fun t => totalsGet topics_df.rows t)
  else if blogs_df.nrows ≠ 0 ∧ blogs_df.topic_label.isSome then
    topic_ids.map (fun t => valueCountsGet (blogs_df.topic_label.getD []) (labelFor labels_map t))
  else
    topic_ids.map (fun _ => 1)

/-- sklearn's `_handle_zeros_in_scale`: a zero data range is replaced by
`1` so the scaler never divides by zero. -/
def handleZero (x : ℚ) : ℚ := if x = 0 then 1 else x

/-- `MinMaxScaler((lo, hi)).fit_transform` on a one-column array
(`home.py` line 76): `x ↦ lo + (x - min) * (hi - lo) / (max - min)`,
with the zero-range divisor replaced by `1`. -/
def minMaxScale (lo hi : ℚ) (raw : List ℚ) : List ℚ :=
  match raw with
  | [] => []
  | x :: xs =>
    let mn := xs.foldl min x
    let mx := xs.foldl max x
    let scale := (hi - lo) / handleZero (mx - mn)
    (x :: xs).map (fun v => lo + (v - mn) * scale)

/-- `_topic_sizes` of `home.py` lines 65-77: raw popularity per topic id,
min-max scaled into `[8, 28]`. -/
def _topic_sizes (topic_ids : List ℤ) (topics_df : TopicsDF) (blogs_df : BlogsDF)
    (labels_map : List (String × String)) : List ℚ :=
  minMaxScale 8 28 (rawPopularity topic_ids topics_df blogs_df labels_map)

/-- The fixed eight-colour palette of `home.py` line 80. -/
def green_palette : List String :=
  ["#2ecc40", "#27ae60", "#16a085", "#229954", "#1e8449", "#239b56", "#28b463", "#58d68d"]

/-- `pd.Series(labels).unique()`: the distinct values in first-encounter
order; `seen` accumulates the values already emitted. -/
def uniqueFirst (seen : List String) : List String → List String
  | [] => []
  | x :: xs => if x ∈ seen then uniqueFirst seen xs else x :: uniqueFirst (x :: seen) xs

/-- The distinct labels of the input in first-encounter order
(`cats` of `home.py` line 81). -/
def catsOf (labels : List String) : List String := uniqueFirst [] labels

/-- The dict comprehension `{lab: green_palette[i % len(green_palette)]
for i, lab in enumerate(cats)}` of `home.py` line 82, with `k` the
enumeration index of the first listed label. -/
def assignColors (k : ℕ) : List String → List (String × String)
  | [] => []
  | lab :: rest =>
    (lab, green_palette.getD (k % green_palette.length) "") :: assignColors (k + 1) rest

/-- `_color_map` of `home.py` lines 79-82, the resulting dict as an
insertion-ordered association list. -/
def _color_map (labels : List String) : List (String × String) :=
  assignColors 0 (catsOf labels)

/-- `keywords_df.groupby('Keyword', as_index=False)['Score'].sum()` of
`topics.py` line 133: one row per distinct keyword, keys in ascending
order (pandas `groupby` sorts keys), each with its summed score. -/
def groupSumKeywords (ps : List (String × ℚ)) : List (String × ℚ) :=
  ((ps.map Prod.fst).dedup.insertionSort strLe).map
    (fun k => (k, ((ps.filter (fun p => p.1 == k)).map Prod.snd).sum))

/-- `.sort_values('Score', ascending=False)` of `topics.py` line 133:
pandas argsorts ascending (stably, for small inputs) and reverses the
order for a descending sort, so ties come out in reversed pre-sort
order. -/
def sortValuesDesc (rows : List (String × ℚ)) : List (String × ℚ) :=
  (rows.insertionSort (fun a b => a.2 ≤ b.2)).reverse

/-- The top-N keyword ranking of `topics.py` lines 131-136 (the source
instantiates `n` with 10 in `.head(10)`): group by keyword summing
scores, sort by descending summed score, take the first `n`. -/
def topNKeywords (n : ℕ) (ps : List (String × ℚ)) : List (String × ℚ) :=
  (sortValuesDesc (groupSumKeywords ps)).take n

/-- Modelled from the spec's words, for comparison with `topNKeywords`:
"group by key summing weights" with groups in first-encounter order,
"sort descending by summed weight" with "ties broken by first-encountered
key (stable sort)", "return first N". -/
def topNKeywordsSpec (n : ℕ) (ps : List (String × ℚ)) : List (String × ℚ) :=
  (((uniqueFirst [] (ps.map Prod.fst)).map
      (fun k => (k, ((ps.filter (fun p => p.1 == k)).map Prod.snd).sum))).insertionSort
    (fun a b => b.2 ≤ a.2)).take n

/-- The "Others" bucketing of `topics.py` lines 160-166: keep the rows
with count `> 1`, sum the counts of the rows with count `== 1`, and
append a synthetic `("Others", sum)` row only when that sum is
positive. -/
def bucketOthers (author_counts : List (String × ℕ)) : List (String × ℕ) :=
  let top := author_counts.filter (fun p => decide (1 < p.2))
  let others := ((author_counts.filter (fun p => p.2 == 1)).map Prod.snd).sum
  if 0 < others then top ++ [("Others", others)] else top

/-- The input with every keyword score replaced by a parseable score of
the same parsed value (a malformed score becomes a parseable `0.0`). -/
def sanitizeScores (topic_data : List TopicItem) : List TopicItem :=
  topic_data.map (fun item =>
    { item with keywords := item.keywords.map (fun p => (p.1, RawScore.mk (some (parseScore p.2)))) })

/-- The value left in a cell after a left-to-right pass over `kws` that
overwrites the cell with the parsed score at every occurrence of `t`,
starting from `d`: the parsed score of the last occurrence of `t`, or `d`
when `t` does not occur. -/
def lastParseD (d : ℚ) : List (String × RawScore) → String → ℚ
  | [], _ => d
  | p :: rest, t => lastParseD (if t = p.1 then parseScore p.2 else d) rest t

/-- The parsed score of the last occurrence of term `t` in `kws`
(`0` when `t` does not occur). -/
def lastParse (kws : List (String × RawScore)) (t : String) : ℚ := lastParseD 0 kws t

/-- Sum, over the distinct terms of a keyword list, of the parsed score
of each term's last occurrence. -/
def distinctLastSum (kws : List (String × RawScore)) : ℚ :=
  ((kws.map Prod.fst).dedup.map (lastParse kws)).sum

theorem lastParseD_of_not_mem (t : String) :
    ∀ (kws : List (String × RawScore)) (d : ℚ), t ∉ kws.map Prod.fst → lastParseD d kws t = d
  | [], d, _ => rfl
  | p :: rest, d, h => by
    have h1 : t ≠ p.1 := fun he => h (by simp [he])
    have h2 : t ∉ rest.map Prod.fst := fun hm => h (by simp [hm])
    simp only [lastParseD, if_neg h1]
    exact lastParseD_of_not_mem t rest d h2

theorem stepVec_map (g : String → ℚ) (p : String × RawScore) :
    ∀ vocab : List String, vocab.Nodup →
      stepVec vocab (vocab.map g) p
        = vocab.map (fun t => if t = p.1 then parseScore p.2 else g t)
  | [], _ => by simp [stepVec]
  | w :: vs, h => by
    have hw : w ∉ vs := (List.nodup_cons.mp h).1
    have hvs : vs.Nodup := (List.nodup_cons.mp h).2
    by_cases hpw : p.1 = w
    · have hmem : p.1 ∈ w :: vs := by simp [hpw]
      have hidx : (w :: vs).indexOf p.1 = 0 := by
        simp [List.indexOf_cons, hpw]
      simp only [stepVec, if_pos hmem, hidx, List.map_cons, List.set]
      have : vs.map (fun t => if t = p.1 then parseScore p.2 else g t) = vs.map g := by
        refine List.map_congr_left (fun t ht => ?_)
        have : t ≠ p.1 := fun he => hw (hpw ▸ he ▸ ht)
        simp [this]
      rw [this, if_pos hpw.symm]
    · by_cases hpv : p.1 ∈ vs
      · have hmem : p.1 ∈ w :: vs := by simp [hpv]
        have hbne : (w == p.1) = false := by
          simp [beq_eq_false_iff_ne]
          exact fun he => hpw he.symm
        have hidx : (w :: vs).indexOf p.1 = vs.indexOf p.1 + 1 := by
          simp [List.indexOf_cons, hbne]
        have htail := stepVec_map g p vs hvs
        simp only [stepVec, if_pos hpv] at htail
        simp only [stepVec, if_pos hmem, hidx, List.map_cons, List.set, htail]
        simp [Ne.symm hpw]
      · have hmem : p.1 ∉ w :: vs := by
          simp [List.mem_cons, hpw, hpv]
        simp only [stepVec, if_neg hmem]
        refine (List.map_congr_left (fun t ht => ?_)).symm
        have : t ≠ p.1 := fun he => hmem (he ▸ ht)
        simp [this]

theorem foldl_stepVec_map (vocab : List String) (h : vocab.Nodup) :
    ∀ (kws : List (String × RawScore)) (g : String → ℚ),
      kws.foldl (stepVec vocab) (vocab.map g)
        = vocab.map (fun t => lastParseD (g t) kws t)
  | [], g => by simp [lastParseD]
  | p :: rest, g => by
    rw [List.foldl_cons, stepVec_map g p vocab h,
        foldl_stepVec_map vocab h rest (fun t => if t = p.1 then parseScore p.2 else g t)]
    rfl

theorem buildVec_eq_map (vocab : List String) (h : vocab.Nodup)
    (kws : List (String × RawScore)) :
    buildVec vocab kws = vocab.map (lastParse kws) := by
  have h0 : List.replicate vocab.length (0 : ℚ) = vocab.map (fun _ => 0) :=
    (List.map_const vocab 0).symm
  unfold buildVec
  rw [h0, foldl_stepVec_map vocab h kws (fun _ => 0)]
  rfl

theorem length_foldl_stepVec (vocab : List String) :
    ∀ (kws : List (String × RawScore)) (vec : List ℚ),
      (kws.foldl (stepVec vocab) vec).length = vec.length
  | [], _ => rfl
  | p :: rest, vec => by
    rw [List.foldl_cons, length_foldl_stepVec vocab rest]
    unfold stepVec
    split <;> simp

theorem length_buildVec (vocab : List String) (kws : List (String × RawScore)) :
    (buildVec vocab kws).length = vocab.length := by
  unfold buildVec
  rw [length_foldl_stepVec]
  exact List.length_replicate _ _

theorem vocabOf_nodup (topic_data : List TopicItem) : (vocabOf topic_data).Nodup :=
  ((List.perm_insertionSort strLe _).nodup_iff).mpr (List.nodup_dedup _)

theorem mem_vocabOf (topic_data : List TopicItem) (t : String) :
    t ∈ vocabOf topic_data ↔ t ∈ allTerms topic_data := by
  unfold vocabOf
  rw [(List.perm_insertionSort strLe _).mem_iff, List.mem_dedup]

theorem vocabOf_eq_nil_iff (topic_data : List TopicItem) :
    vocabOf topic_data = [] ↔ ∀ item ∈ topic_data, item.keywords = [] := by
  constructor
  · intro h item hitem
    rcases hkw : item.keywords with _ | ⟨p, rest⟩
    · rfl
    · exfalso
      have hmem : p.1 ∈ allTerms topic_data := by
        unfold allTerms
        rw [List.mem_flatten]
        exact ⟨item.keywords.map Prod.fst, List.mem_map_of_mem _ hitem,
               by rw [hkw]; simp⟩
      have := (mem_vocabOf topic_data p.1).mpr hmem
      rw [h] at this
      exact List.not_mem_nil _ this
  · intro h
    have hterms : allTerms topic_data = [] := by
      unfold allTerms
      rw [List.flatten_eq_nil_iff]
      intro l hl
      rcases List.mem_map.mp hl with ⟨item, hitem, rfl⟩
      rw [h item hitem]
      rfl
    unfold vocabOf
    rw [hterms]
    rfl

theorem keys_subset_vocabOf (topic_data : List TopicItem) (item : TopicItem)
    (hitem : item ∈ topic_data) (q : String × RawScore) (hq : q ∈ item.keywords) :
    q.1 ∈ vocabOf topic_data := by
  rw [mem_vocabOf]
  unfold allTerms
  rw [List.mem_flatten]
  exact ⟨item.keywords.map Prod.fst, List.mem_map_of_mem _ hitem, List.mem_map_of_mem _ hq⟩

theorem sum_map_eq_sum_filter_of_zero (f : String → ℚ) (p : String → Bool) :
    ∀ l : List String, (∀ t ∈ l, p t = false → f t = 0) →
      (l.map f).sum = ((l.filter p).map f).sum
  | [], _ => rfl
  | x :: xs, h => by
    have hxs := sum_map_eq_sum_filter_of_zero f p xs (fun t ht => h t (List.mem_cons_of_mem _ ht))
    rcases hx : p x with _ | _
    · rw [List.map_cons, List.sum_cons, h x (List.mem_cons_self _ _) hx, hxs, zero_add,
          List.filter_cons, hx]
      simp
    · rw [List.map_cons, List.sum_cons, hxs, List.filter_cons, hx]
      simp

theorem sum_map_lastParse_nodup :
    ∀ kws : List (String × RawScore), (kws.map Prod.fst).Nodup →
      ((kws.map Prod.fst).map (lastParse kws)).sum
        = (kws.map (fun p => parseScore p.2)).sum
  | [], _ => rfl
  | p :: rest, h => by
    have hp : p.1 ∉ rest.map Prod.fst := by
      intro hm
      exact (List.nodup_cons.mp (by simpa using h)).1 hm
    have hrest : (rest.map Prod.fst).Nodup := (List.nodup_cons.mp (by simpa using h)).2
    have hhead : lastParse (p :: rest) p.1 = parseScore p.2 := by
      unfold lastParse lastParseD
      rw [if_pos rfl]
      exact lastParseD_of_not_mem p.1 rest (parseScore p.2) hp
    have htail : (rest.map Prod.fst).map (lastParse (p :: rest))
        = (rest.map Prod.fst).map (lastParse rest) := by
      refine List.map_congr_left (fun t ht => ?_)
      have hne : t ≠ p.1 := fun he => hp (he ▸ ht)
      have h1 : lastParse (p :: rest) t
          = lastParseD (if t = p.1 then parseScore p.2 else 0) rest t := rfl
      rw [h1, if_neg hne]
      rfl
    simp only [List.map_cons, List.sum_cons, hhead, htail,
               sum_map_lastParse_nodup rest hrest]

theorem buildVec_sum (topic_data : List TopicItem) (item : TopicItem)
    (hitem : item ∈ topic_data) :
    (buildVec (vocabOf topic_data) item.keywords).sum = distinctLastSum item.keywords := by
  set vocab := vocabOf topic_data with hv
  set kws := item.keywords with hk
  rw [buildVec_eq_map vocab (vocabOf_nodup topic_data) kws]
  have hzero : ∀ t ∈ vocab, (kws.map Prod.fst).contains t = false → lastParse kws t = 0 := by
    intro t _ hc
    have hmem : ¬ ((kws.map Prod.fst).contains t = true) := by rw [hc]; simp
    have : t ∉ kws.map Prod.fst := fun hm => hmem (List.elem_iff.mpr hm)
    exact lastParseD_of_not_mem t kws 0 this
  rw [sum_map_eq_sum_filter_of_zero (lastParse kws) (fun t => (kws.map Prod.fst).contains t)
        vocab hzero]
  have hperm : (vocab.filter (fun t => (kws.map Prod.fst).contains t)).Perm
      (kws.map Prod.fst).dedup := by
    rw [List.perm_ext_iff_of_nodup ((vocabOf_nodup topic_data).filter _) (List.nodup_dedup _)]
    intro a
    rw [List.mem_filter, List.mem_dedup]
    constructor
    · rintro ⟨_, hc⟩
      exact List.elem_iff.mp hc
    · intro hm
      refine ⟨?_, List.elem_iff.mpr hm⟩
      rcases List.mem_map.mp hm with ⟨q, hq, rfl⟩
      exact keys_subset_vocabOf topic_data item hitem q hq
  exact (hperm.map (lastParse kws)).sum_eq

theorem buildLoop_ok (vocab : List String) :
    ∀ (td : List TopicItem) (rows : List (List ℚ)) (ids : List ℤ) (tops : List String),
      buildLoop vocab td = Except.ok (rows, ids, tops) →
      rows = (keptItems td).map (fun item => buildVec vocab item.keywords)
        ∧ ids.length = rows.length ∧ tops.length = rows.length := by
  intro td
  induction td with
  | nil =>
    intro rows ids tops h
    simp only [buildLoop, Except.ok.injEq, Prod.mk.injEq] at h
    obtain ⟨h1, h2, h3⟩ := h
    subst h1; subst h2; subst h3
    simp [keptItems]
  | cons item rest ih =>
    intro rows ids tops h
    rcases hn : item.topic_number with _ | t
    · simp only [buildLoop, hn] at h
      have := ih rows ids tops h
      simpa [keptItems, List.filter_cons, hn] using this
    · rcases hi : t.toInt? with _ | n
      · simp only [buildLoop, hn, hi] at h
        exact absurd h (by simp)
      · simp only [buildLoop, hn, hi] at h
        rcases hrec : buildLoop vocab rest with e | trip
        · rw [hrec] at h
          simp at h
        · obtain ⟨rows', ids', tops'⟩ := trip
          rw [hrec] at h
          simp only [Except.ok.injEq, Prod.mk.injEq] at h
          obtain ⟨h1, h2, h3⟩ := h
          subst h1; subst h2; subst h3
          obtain ⟨ih1, ih2, ih3⟩ := ih rows' ids' tops' hrec
          refine ⟨?_, by simpa using ih2, by simpa using ih3⟩
          have hk : keptItems (item :: rest) = item :: keptItems rest := by
            simp [keptItems, List.filter_cons, hn]
          rw [hk, List.map_cons, ← ih1]

theorem buildLoop_error_iff (vocab : List String) :
    ∀ td : List TopicItem,
      (buildLoop vocab td = Except.error ()
        ↔ ∃ item ∈ td, ∃ t, item.topic_number = some t ∧ t.toInt? = none) := by
  intro td
  induction td with
  | nil => simp [buildLoop]
  | cons item rest ih =>
    rcases hn : item.topic_number with _ | t
    · simp only [buildLoop, hn]
      rw [ih]
      constructor
      · rintro ⟨it, hit, w⟩
        exact ⟨it, List.mem_cons_of_mem _ hit, w⟩
      · rintro ⟨it, hit, w⟩
        rcases List.mem_cons.mp hit with rfl | hit'
        · rcases w with ⟨u, hu, _⟩
          rw [hn] at hu
          exact absurd hu (by simp)
        · exact ⟨it, hit', w⟩
    · rcases hi : t.toInt? with _ | n
      · simp only [buildLoop, hn, hi]
        constructor
        · intro _
          exact ⟨item, List.mem_cons_self _ _, t, hn, hi⟩
        · intro _
          trivial
      · simp only [buildLoop, hn, hi]
        rcases hrec : buildLoop vocab rest with e | trip
        · obtain rfl : e = () := rfl
          rw [ih] at hrec
          simp only [hrec]
          constructor
          · rintro _
            rcases hrec with ⟨it, hit, w⟩
            exact ⟨it, List.mem_cons_of_mem _ hit, w⟩
          · intro _
            trivial
        · obtain ⟨rows', ids', tops'⟩ := trip
          simp only []
          constructor
          · intro h
            exact absurd h (by simp)
          · rintro ⟨it, hit, u, hu, hui⟩
            rcases List.mem_cons.mp hit with rfl | hit'
            · rw [hn] at hu
              injection hu with hu
              subst hu
              rw [hi] at hui
              exact absurd hui (by simp)
            · have : buildLoop vocab rest = Except.error () :=
                (ih).mpr ⟨it, hit', u, hu, hui⟩
              rw [hrec] at this
              exact absurd this (by simp)

theorem allTerms_sanitize (td : List TopicItem) : allTerms (sanitizeScores td) = allTerms td := by
  unfold allTerms sanitizeScores
  rw [List.map_map]
  congr 1
  refine List.map_congr_left (fun item _ => ?_)
  simp [Function.comp, List.map_map]

theorem vocabOf_sanitize (td : List TopicItem) : vocabOf (sanitizeScores td) = vocabOf td := by
  unfold vocabOf
  rw [allTerms_sanitize]

theorem buildVec_sanitize (vocab : List String) (kws : List (String × RawScore)) :
    buildVec vocab (kws.map (fun p => (p.1, RawScore.mk (some (parseScore p.2)))))
      = buildVec vocab kws := by
  unfold buildVec
  rw [List.foldl_map]
  rfl

theorem top5String_congr (kws1 kws2 : List (String × RawScore))
    (h : kws1.map Prod.fst = kws2.map Prod.fst) : top5String kws1 = top5String kws2 := by
  unfold top5String
  rw [List.map_take, List.map_take, h]
  have hlen : kws1.isEmpty = kws2.isEmpty := by
    rcases kws1 with _ | _ <;> rcases kws2 with _ | _ <;> simp_all
  rw [hlen]

theorem top5String_sanitize (kws : List (String × RawScore)) :
    top5String (kws.map (fun p => (p.1, RawScore.mk (some (parseScore p.2)))))
      = top5String kws := by
  refine top5String_congr _ _ ?_
  rw [List.map_map]
  exact List.map_congr_left (fun q _ => rfl)

theorem buildLoop_sanitize (vocab : List String) :
    ∀ td : List TopicItem, buildLoop vocab (sanitizeScores td) = buildLoop vocab td := by
  intro td
  induction td with
  | nil => rfl
  | cons item rest ih =>
    simp only [sanitizeScores, List.map_cons] at ih ⊢
    rcases hn : item.topic_number with _ | t
    · simp only [buildLoop, hn]
      exact ih
    · rcases hi : t.toInt? with _ | n
      · simp only [buildLoop, hn, hi]
      · simp only [buildLoop, hn, hi, ih, buildVec_sanitize, top5String_sanitize]

theorem build_sanitize (td : List TopicItem) :
    _build_topic_matrix (sanitizeScores td) = _build_topic_matrix td := by
  unfold _build_topic_matrix
  simp only [vocabOf_sanitize, buildLoop_sanitize]

theorem build_error_iff (td : List TopicItem) :
    _build_topic_matrix td = Except.error ()
      ↔ vocabOf td ≠ [] ∧ ∃ item ∈ td, ∃ t, item.topic_number = some t ∧ t.toInt? = none := by
  unfold _build_topic_matrix
  by_cases hv : vocabOf td = []
  · simp [hv]
  · have hb : (vocabOf td).isEmpty = false := by
      rcases h : (vocabOf td).isEmpty with _ | _
      · rfl
      · exact absurd (List.isEmpty_iff.mp h) hv
    simp only [hb, Bool.false_eq_true, if_false]
    rw [buildLoop_error_iff]
    exact (and_iff_right hv).symm

/-- C1, counterexample: in a topic whose keyword list names the same term
twice, the cell is overwritten (`vec[idx[kw]] = float(score)`), so the row
sums to the last occurrence's weight (2), not to the sum of all parseable
keyword weights (1 + 2 = 3), refuting the claim at this input. -/
theorem C1_counterexample :
    _build_topic_matrix [⟨some ⟨some 1⟩, [("a", ⟨some 1⟩), ("a", ⟨some 2⟩)]⟩]
        = Except.ok ([[2]], [1], ["a, a"])
      ∧ ([(2 : ℚ)].sum ≠ ([("a", RawScore.mk (some 1)), ("a", RawScore.mk (some 2))].map
          (fun p => parseScore p.2)).sum) := by
  constructor
  · decide
  · intro h
    have h1 : ([(2 : ℚ)]).sum = 2 := by norm_num
    have h2 : ([("a", RawScore.mk (some 1)), ("a", RawScore.mk (some 2))].map
        (fun p => parseScore p.2)).sum = 3 := by
      simp [parseScore]
      norm_num
    rw [h1, h2] at h
    norm_num at h

/-- C1 (amended): in the matrix built by `_build_topic_matrix`, each row's
sum equals the sum, over the distinct terms of the corresponding record's
keyword list, of the parsed weight of each term's last occurrence
(unparseable scores contributing 0.0); when no term repeats in the list
this equals the sum of the record's parseable keyword weights. -/
theorem C1_row_sum (td : List TopicItem)
    (rows : List (List ℚ)) (ids : List ℤ) (tops : List String)
    (hok : _build_topic_matrix td = Except.ok (rows, ids, tops))
    (i : ℕ) (hi : i < rows.length) :
    (rows.getD i []).sum = distinctLastSum ((keptItems td).getD i default).keywords
      ∧ ((((keptItems td).getD i default).keywords.map Prod.fst).Nodup →
          (rows.getD i []).sum
            = (((keptItems td).getD i default).keywords.map (fun p => parseScore p.2)).sum) := by
  unfold _build_topic_matrix at hok
  by_cases hv : (vocabOf td).isEmpty = true
  · rw [if_pos hv] at hok
    simp only [Except.ok.injEq, Prod.mk.injEq] at hok
    obtain ⟨rfl, -, -⟩ := hok
    exact absurd hi (by simp)
  · rw [if_neg hv] at hok
    obtain ⟨hrows, -, -⟩ := buildLoop_ok (vocabOf td) td rows ids tops hok
    have hlen : rows.length = (keptItems td).length := by rw [hrows, List.length_map]
    have hik : i < (keptItems td).length := hlen ▸ hi
    have hrow : rows.getD i []
        = buildVec (vocabOf td) ((keptItems td).getD i default).keywords := by
      rw [hrows, List.getD_eq_getElem _ _ (by rw [List.length_map]; exact hik),
          List.getD_eq_getElem _ _ hik, List.getElem_map]
    have hmem : (keptItems td).getD i default ∈ td := by
      rw [List.getD_eq_getElem _ _ hik]
      exact List.mem_of_mem_filter (List.getElem_mem hik)
    have hsum := buildVec_sum td ((keptItems td).getD i default) hmem
    refine ⟨by rw [hrow, hsum], fun hnd => ?_⟩
    rw [hrow, hsum]
    unfold distinctLastSum
    rw [List.dedup_eq_self.mpr hnd]
    exact sum_map_lastParse_nodup _ hnd

/-- C1, witness: the amended row-sum property evaluated on a one-record
input with a single parseable keyword of weight 2. -/
theorem C1_row_sum_witness :
    (([[(2 : ℚ)]].getD 0 []).sum
        = distinctLastSum ((keptItems [⟨some ⟨some 1⟩, [("a", ⟨some 2⟩)]⟩]).getD 0 default).keywords)
      ∧ (([[(2 : ℚ)]].getD 0 []).sum
        = (((keptItems [⟨some ⟨some 1⟩, [("a", ⟨some 2⟩)]⟩]).getD 0 default).keywords.map
            (fun p => parseScore p.2)).sum) := by
  have h := C1_row_sum [⟨some ⟨some 1⟩, [("a", ⟨some 2⟩)]⟩] [[2]] [1] ["a"]
    (by decide) 0 (by decide)
  exact ⟨h.1, h.2 (by decide)⟩

/-- C2, counterexample: a record with a present `topic_number` and an empty
keyword list still contributes an (all-zero) row, so the matrix has 2 rows
while only 1 topic has at least one keyword, refuting the claim. -/
theorem C2_counterexample :
    _build_topic_matrix [⟨some ⟨some 1⟩, [("a", ⟨some 1⟩)]⟩, ⟨some ⟨some 2⟩, []⟩]
        = Except.ok ([[1], [0]], [1, 2], ["a", ""])
      ∧ ([[(1 : ℚ)], [0]].length
          ≠ ([⟨some ⟨some 1⟩, [("a", ⟨some 1⟩)]⟩, (⟨some ⟨some 2⟩, []⟩ : TopicItem)].filter
              (fun item => !item.keywords.isEmpty)).length) := by
  exact ⟨by decide, by decide⟩

/-- C2 (amended): when some record has a nonempty keyword list, a
successful `_build_topic_matrix` yields exactly one row per record whose
`topic_number` is present (a record with an empty keyword list but a
present `topic_number` also yields a row), and every row's length equals
the number of distinct terms across all records. -/
theorem C2_shape (td : List TopicItem)
    (hne : ∃ item ∈ td, item.keywords ≠ [])
    (rows : List (List ℚ)) (ids : List ℤ) (tops : List String)
    (hok : _build_topic_matrix td = Except.ok (rows, ids, tops)) :
    rows.length = (keptItems td).length
      ∧ ∀ r ∈ rows, r.length = (allTerms td).dedup.length := by
  have hv : vocabOf td ≠ [] := by
    intro he
    obtain ⟨item, hitem, hk⟩ := hne
    exact hk ((vocabOf_eq_nil_iff td).mp he item hitem)
  have hb : (vocabOf td).isEmpty = false := by
    rcases h : (vocabOf td).isEmpty with _ | _
    · rfl
    · exact absurd (List.isEmpty_iff.mp h) hv
  unfold _build_topic_matrix at hok
  simp only [hb, Bool.false_eq_true, if_false] at hok
  obtain ⟨hrows, -, -⟩ := buildLoop_ok (vocabOf td) td rows ids tops hok
  constructor
  · rw [hrows, List.length_map]
  · intro r hr
    rw [hrows] at hr
    obtain ⟨item, -, rfl⟩ := List.mem_map.mp hr
    rw [length_buildVec]
    exact List.length_insertionSort strLe _

/-- C2, witness: the amended shape property evaluated on a two-record
input (one record with one keyword, one with none): 2 rows, each of
length 1. -/
theorem C2_shape_witness :
    ([[(1 : ℚ)], [0]].length
        = (keptItems [⟨some ⟨some 1⟩, [("a", ⟨some 1⟩)]⟩, ⟨some ⟨some 2⟩, []⟩]).length)
      ∧ ([(1 : ℚ)].length
        = (allTerms [⟨some ⟨some 1⟩, [("a", ⟨some 1⟩)]⟩,
            (⟨some ⟨some 2⟩, []⟩ : TopicItem)]).dedup.length) := by
  have h := C2_shape [⟨some ⟨some 1⟩, [("a", ⟨some 1⟩)]⟩, ⟨some ⟨some 2⟩, []⟩]
    (by decide) [[1], [0]] [1, 2] ["a", ""] (by decide)
  exact ⟨h.1, h.2 [1] (by decide)⟩

/-- C8: when no record carries any keyword (empty vocabulary), including
the entirely empty input, `_build_topic_matrix` returns the explicit empty
result (no rows, no ids, no display strings) instead of failing. -/
theorem C8_empty_vocab (td : List TopicItem) (h : ∀ item ∈ td, item.keywords = []) :
    _build_topic_matrix td = Except.ok ([], [], []) := by
  have hv : vocabOf td = [] := (vocabOf_eq_nil_iff td).mpr h
  unfold _build_topic_matrix
  simp [hv]

/-- C8, witness: the empty-vocabulary behaviour evaluated on a two-record
keywordless input (one record even has an unconvertible `topic_number`). -/
theorem C8_empty_vocab_witness :
    _build_topic_matrix [⟨some ⟨none⟩, []⟩, ⟨none, []⟩] = Except.ok ([], [], []) :=
  C8_empty_vocab [⟨some ⟨none⟩, []⟩, ⟨none, []⟩] (by decide)

/-- C9: a malformed keyword score is locally replaced by 0.0 — replacing
every score by a parseable score of its parsed value leaves the whole
build result unchanged — and the build aborts only because of a present
but unconvertible `topic_number` (never because of a score). -/
theorem C9_malformed_score_local (td : List TopicItem) :
    _build_topic_matrix (sanitizeScores td) = _build_topic_matrix td
      ∧ (_build_topic_matrix td = Except.error ()
          ↔ vocabOf td ≠ [] ∧ ∃ item ∈ td, ∃ t, item.topic_number = some t ∧ t.toInt? = none) :=
  ⟨build_sanitize td, build_error_iff td⟩

/-- C10, counterexample: with an empty vocabulary the function returns the
empty result before the loop, so a present but unconvertible
`topic_number` does not make the build raise, refuting the claim at this
input. -/
theorem C10_counterexample :
    _build_topic_matrix [⟨some ⟨none⟩, []⟩] = Except.ok ([], [], [])
      ∧ (Except.ok (([] : List (List ℚ)), ([] : List ℤ), ([] : List String))
          ≠ (Except.error () : Except Unit (List (List ℚ) × List ℤ × List String))) :=
  ⟨by decide, by decide⟩

/-- C10 (amended): provided the vocabulary is nonempty (some record has a
keyword), a record whose `topic_number` is present but not convertible to
an integer makes the whole build raise, producing no partial matrix. -/
theorem C10_bad_topic_number_aborts (td : List TopicItem)
    (hv : vocabOf td ≠ []) (item : TopicItem) (hitem : item ∈ td) (t : RawTopicNum)
    (ht : item.topic_number = some t) (hti : t.toInt? = none) :
    _build_topic_matrix td = Except.error () :=
  (build_error_iff td).mpr ⟨hv, item, hitem, t, ht, hti⟩

/-- C10, witness: the amended abort behaviour evaluated on a one-record
input with a keyword and an unconvertible `topic_number`. -/
theorem C10_bad_topic_number_aborts_witness :
    _build_topic_matrix [⟨some ⟨none⟩, [("a", ⟨some 1⟩)]⟩] = Except.error () :=
  C10_bad_topic_number_aborts [⟨some ⟨none⟩, [("a", ⟨some 1⟩)]⟩] (by decide)
    ⟨some ⟨none⟩, [("a", ⟨some 1⟩)]⟩ (by decide) ⟨none⟩ rfl rfl

theorem foldl_min_le (x : ℚ) :
    ∀ xs : List ℚ, xs.foldl min x ≤ x ∧ ∀ y ∈ xs, xs.foldl min x ≤ y := by
  intro xs
  induction xs generalizing x with
  | nil => simp
  | cons a l ih =>
    have h := ih (min x a)
    refine ⟨le_trans h.1 (min_le_left _ _), fun y hy => ?_⟩
    rcases List.mem_cons.mp hy with rfl | hy'
    · exact le_trans h.1 (min_le_right _ _)
    · exact h.2 y hy'

theorem le_foldl_max (x : ℚ) :
    ∀ xs : List ℚ, x ≤ xs.foldl max x ∧ ∀ y ∈ xs, y ≤ xs.foldl max x := by
  intro xs
  induction xs generalizing x with
  | nil => simp
  | cons a l ih =>
    have h := ih (max x a)
    refine ⟨le_trans (le_max_left _ _) h.1, fun y hy => ?_⟩
    rcases List.mem_cons.mp hy with rfl | hy'
    · exact le_trans (le_max_right _ _) h.1
    · exact h.2 y hy'

theorem minMaxScale_length (lo hi : ℚ) (raw : List ℚ) :
    (minMaxScale lo hi raw).length = raw.length := by
  cases raw <;> simp [minMaxScale]

theorem scale_nonneg (lo hi : ℚ) (h : lo ≤ hi) (x : ℚ) (xs : List ℚ) :
    0 ≤ (hi - lo) / handleZero (xs.foldl max x - xs.foldl min x) := by
  have hmn := (foldl_min_le x xs).1
  have hmx := (le_foldl_max x xs).1
  unfold handleZero
  by_cases h0 : xs.foldl max x - xs.foldl min x = 0
  · rw [if_pos h0]
    linarith
  · rw [if_neg h0]
    exact div_nonneg (by linarith) (by linarith)

theorem minMaxScale_bounds (lo hi : ℚ) (h : lo ≤ hi) (raw : List ℚ) :
    ∀ s ∈ minMaxScale lo hi raw, lo ≤ s ∧ s ≤ hi := by
  cases raw with
  | nil => intro s hs; simp [minMaxScale] at hs
  | cons x xs =>
    intro s hs
    simp only [minMaxScale] at hs
    obtain ⟨v, hv, rfl⟩ := List.mem_map.mp hs
    have hminv : xs.foldl min x ≤ v := by
      rcases List.mem_cons.mp hv with rfl | hv'
      · exact (foldl_min_le v xs).1
      · exact (foldl_min_le x xs).2 v hv'
    have hvmax : v ≤ xs.foldl max x := by
      rcases List.mem_cons.mp hv with rfl | hv'
      · exact (le_foldl_max v xs).1
      · exact (le_foldl_max x xs).2 v hv'
    by_cases hr : xs.foldl max x - xs.foldl min x = 0
    · have hveq : v - xs.foldl min x = 0 := by linarith
      rw [hveq]
      simp [h]
    · have hrpos : 0 < xs.foldl max x - xs.foldl min x :=
        lt_of_le_of_ne (by linarith) (Ne.symm hr)
      have hhz : handleZero (xs.foldl max x - xs.foldl min x)
          = xs.foldl max x - xs.foldl min x := if_neg hr
      rw [hhz]
      have hs0 : 0 ≤ (hi - lo) / (xs.foldl max x - xs.foldl min x) :=
        div_nonneg (by linarith) (le_of_lt hrpos)
      have hub : (v - xs.foldl min x) * ((hi - lo) / (xs.foldl max x - xs.foldl min x))
          ≤ (xs.foldl max x - xs.foldl min x) * ((hi - lo) / (xs.foldl max x - xs.foldl min x)) :=
        mul_le_mul_of_nonneg_right (by linarith) hs0
      have hcan : (xs.foldl max x - xs.foldl min x) * ((hi - lo) / (xs.foldl max x - xs.foldl min x))
          = hi - lo := by
        field_simp
      have hlb : 0 ≤ (v - xs.foldl min x) * ((hi - lo) / (xs.foldl max x - xs.foldl min x)) :=
        mul_nonneg (by linarith) hs0
      constructor
      · linarith
      · rw [hcan] at hub
        linarith

theorem minMaxScale_getD (lo hi : ℚ) (x : ℚ) (xs : List ℚ) (k : ℕ)
    (hk : k < (x :: xs).length) :
    (minMaxScale lo hi (x :: xs)).getD k 0
      = lo + ((x :: xs).getD k 0 - xs.foldl min x)
          * ((hi - lo) / handleZero (xs.foldl max x - xs.foldl min x)) := by
  have hlen : k < (minMaxScale lo hi (x :: xs)).length := by
    rw [minMaxScale_length]
    exact hk
  rw [List.getD_eq_getElem _ _ hlen, List.getD_eq_getElem _ _ hk]
  simp only [minMaxScale, List.map_cons]
  cases k with
  | zero => simp
  | succ m =>
    have hm : m < xs.length := by simpa using hk
    simp [List.getElem_cons_succ, List.getElem_map]

theorem minMaxScale_monotone (lo hi : ℚ) (h : lo ≤ hi) (raw : List ℚ) (i j : ℕ)
    (hi' : i < raw.length) (hj : j < raw.length)
    (hle : raw.getD i 0 ≤ raw.getD j 0) :
    (minMaxScale lo hi raw).getD i 0 ≤ (minMaxScale lo hi raw).getD j 0 := by
  cases raw with
  | nil => simp at hi'
  | cons x xs =>
    rw [minMaxScale_getD lo hi x xs i hi', minMaxScale_getD lo hi x xs j hj]
    have hsc := scale_nonneg lo hi h x xs
    have := mul_le_mul_of_nonneg_right (sub_le_sub_right hle (xs.foldl min x)) hsc
    linarith

/-- C4, counterexample: a topic id present in the frequency table with a
summed count of 0 yields raw popularity 0.0, not the claimed default 1.0
(`totals.get(t, 1.0)` only defaults when the id is missing). -/
theorem C4_counterexample :
    rawPopularity [1, 2] ⟨[((1 : ℤ), (0 : ℚ))]⟩ ⟨0, none⟩ [] = [0, 1]
      ∧ (0 : ℚ) ≠ 1 := by
  constructor
  · simp [rawPopularity, totalsGet]
  · norm_num

/-- C4 (amended): `_topic_sizes` tries sources in order.  If the
topic-frequency table is nonempty, raw popularity is the summed document
count for the topic id whenever the id occurs in the table (even when the
sum is 0), and the default 1.0 only when the id is missing.  Otherwise, if
per-document label data is available (nonempty table with a `topic_label`
column), raw popularity is the number of documents carrying the topic's
mapped label when at least one does, and the default 1.0 when none does.
Otherwise it is uniformly 1.0. -/
theorem C4_priority (topic_ids : List ℤ) (tdf : TopicsDF) (bdf : BlogsDF)
    (lm : List (String × String)) :
    (tdf.rows ≠ [] →
      rawPopularity topic_ids tdf bdf lm
        = topic_ids.map (fun t =>
            if t ∈ tdf.rows.map Prod.fst
            then ((tdf.rows.filter (fun r => r.1 == t)).map Prod.snd).sum
            else 1))
    ∧ (∀ ls : List String, tdf.rows = [] → bdf.nrows ≠ 0 → bdf.topic_label = some ls →
      rawPopularity topic_ids tdf bdf lm
        = topic_ids.map (fun t =>
            if (lm.lookup (toString t)).getD (toString t) ∈ ls
            then (ls.count ((lm.lookup (toString t)).getD (toString t)) : ℚ)
            else 1))
    ∧ (tdf.rows = [] → (bdf.nrows = 0 ∨ bdf.topic_label = none) →
      rawPopularity topic_ids tdf bdf lm = topic_ids.map (fun _ => 1)) := by
  refine ⟨?_, ?_, ?_⟩
  · intro h
    have hb : tdf.rows.isEmpty = false := by
      rcases he : tdf.rows.isEmpty with _ | _
      · rfl
      · exact absurd (List.isEmpty_iff.mp he) h
    unfold rawPopularity
    rw [if_pos (by simp [hb])]
    refine List.map_congr_left (fun t _ => ?_)
    unfold totalsGet
    by_cases hm : t ∈ tdf.rows.map Prod.fst
    · rw [if_pos (List.elem_iff.mpr hm), if_pos hm]
    · rw [if_neg (fun hc => hm (List.elem_iff.mp hc)), if_neg hm]
  · intro ls h0 h1 h2
    unfold rawPopularity
    rw [if_neg (by simp [h0]), if_pos ⟨h1, by simp [h2]⟩]
    refine List.map_congr_left (fun t _ => ?_)
    unfold valueCountsGet labelFor
    rw [h2]
    simp only [Option.getD_some]
    by_cases hm : (lm.lookup (toString t)).getD (toString t) ∈ ls
    · rw [if_pos (List.elem_iff.mpr hm), if_pos hm]
    · rw [if_neg (fun hc => hm (List.elem_iff.mp hc)), if_neg hm]
  · intro h0 h1
    unfold rawPopularity
    rw [if_neg (by simp [h0]), if_neg ?_]
    rintro ⟨hn, hs⟩
    rcases h1 with h1 | h1
    · exact hn h1
    · rw [h1] at hs
      exact absurd hs (by simp)

/-- C4, witness: the first branch evaluated on a two-id query against a
frequency table containing only topic 1 with summed count 0. -/
theorem C4_priority_witness :
    rawPopularity [1, 2] ⟨[((1 : ℤ), (0 : ℚ))]⟩ ⟨0, none⟩ []
      = [(1 : ℤ), 2].map (fun t =>
          if t ∈ (TopicsDF.mk [((1 : ℤ), (0 : ℚ))]).rows.map Prod.fst
          then (((TopicsDF.mk [((1 : ℤ), (0 : ℚ))]).rows.filter
                  (fun r => r.1 == t)).map Prod.snd).sum
          else 1) :=
  (C4_priority [1, 2] ⟨[((1 : ℤ), (0 : ℚ))]⟩ ⟨0, none⟩ []).1 (by decide)

/-- C5: every size produced by `_topic_sizes` lies within the configured
bounds `[8, 28]`, the output is index-aligned with the raw popularity
list, and a higher raw popularity never yields a smaller scaled size —
including when all raw values are equal (the zero-range case is
special-cased, so no division by zero occurs). -/
theorem C5_size_bounds_monotone (topic_ids : List ℤ) (tdf : TopicsDF) (bdf : BlogsDF)
    (lm : List (String × String)) :
    ((_topic_sizes topic_ids tdf bdf lm).length
        = (rawPopularity topic_ids tdf bdf lm).length)
      ∧ (∀ s ∈ _topic_sizes topic_ids tdf bdf lm, 8 ≤ s ∧ s ≤ 28)
      ∧ (∀ i j, i < (rawPopularity topic_ids tdf bdf lm).length →
          j < (rawPopularity topic_ids tdf bdf lm).length →
          (rawPopularity topic_ids tdf bdf lm).getD i 0
            ≤ (rawPopularity topic_ids tdf bdf lm).getD j 0 →
          (_topic_sizes topic_ids tdf bdf lm).getD i 0
            ≤ (_topic_sizes topic_ids tdf bdf lm).getD j 0) := by
  refine ⟨minMaxScale_length 8 28 _, ?_, ?_⟩
  · exact minMaxScale_bounds 8 28 (by norm_num) _
  · intro i j hi hj hle
    exact minMaxScale_monotone 8 28 (by norm_num) _ i j hi hj hle

/-- C5, witness: the size properties evaluated on two topics with no
popularity source at all (all-equal raw values 1.0): both sizes collapse
to 8 with no division-by-zero failure. -/
theorem C5_size_bounds_monotone_witness :
    ((_topic_sizes [1, 2] ⟨[]⟩ ⟨0, none⟩ []).length
        = (rawPopularity [1, 2] ⟨[]⟩ ⟨0, none⟩ []).length)
      ∧ ((8 : ℚ) ≤ 8 ∧ (8 : ℚ) ≤ 28)
      ∧ ((_topic_sizes [1, 2] ⟨[]⟩ ⟨0, none⟩ []).getD 0 0
          ≤ (_topic_sizes [1, 2] ⟨[]⟩ ⟨0, none⟩ []).getD 1 0) := by
  have h := C5_size_bounds_monotone [1, 2] ⟨[]⟩ ⟨0, none⟩ []
  have hraw : rawPopularity [1, 2] ⟨[]⟩ ⟨0, none⟩ [] = [1, 1] := by
    simp [rawPopularity]
  have hsz : _topic_sizes [1, 2] ⟨[]⟩ ⟨0, none⟩ [] = [8, 8] := by
    unfold _topic_sizes
    rw [hraw]
    norm_num [minMaxScale, handleZero]
  refine ⟨h.1, ?_, ?_⟩
  · have hmem : (8 : ℚ) ∈ _topic_sizes [1, 2] ⟨[]⟩ ⟨0, none⟩ [] := by
      rw [hsz]
      simp
    exact h.2.1 8 hmem
  · refine h.2.2 0 1 ?_ ?_ ?_
    · rw [hraw]; norm_num
    · rw [hraw]; norm_num
    · rw [hraw]; norm_num

theorem uniqueFirst_nodup_and_fresh :
    ∀ (l : List String) (seen : List String),
      (uniqueFirst seen l).Nodup ∧ ∀ x ∈ uniqueFirst seen l, x ∉ seen
  | [], seen => by simp [uniqueFirst]
  | x :: xs, seen => by
    by_cases hx : x ∈ seen
    · simp only [uniqueFirst, if_pos hx]
      exact uniqueFirst_nodup_and_fresh xs seen
    · simp only [uniqueFirst, if_neg hx]
      obtain ⟨hnd, hfresh⟩ := uniqueFirst_nodup_and_fresh xs (x :: seen)
      refine ⟨List.nodup_cons.mpr ⟨?_, hnd⟩, ?_⟩
      · intro hmem
        exact hfresh x hmem (List.mem_cons_self _ _)
      · intro y hy
        rcases List.mem_cons.mp hy with rfl | hy'
        · exact hx
        · exact fun hs => hfresh y hy' (List.mem_cons_of_mem _ hs)

theorem assignColors_map_fst :
    ∀ (cats : List String) (k : ℕ), (assignColors k cats).map Prod.fst = cats
  | [], _ => rfl
  | lab :: rest, k => by
    simp only [assignColors, List.map_cons]
    rw [assignColors_map_fst rest (k + 1)]

theorem assignColors_getD :
    ∀ (cats : List String) (k i : ℕ), i < cats.length →
      (assignColors k cats).getD i ("", "")
        = (cats.getD i "", green_palette.getD ((k + i) % green_palette.length) "")
  | [], _, i, hi => by simp at hi
  | lab :: rest, k, 0, _ => by simp [assignColors]
  | lab :: rest, k, m + 1, hi => by
    have hm : m < rest.length := by simpa using hi
    simp only [assignColors, List.getD_cons_succ]
    rw [assignColors_getD rest (k + 1) m hm]
    have : k + 1 + m = k + (m + 1) := by omega
    rw [this]

/-- C6: `_color_map` lists the distinct labels in first-encounter order
with no duplicate key (so one label always maps to one colour within an
assignment, and the pure mapping is determined by the label-encounter
sequence alone), the i-th distinct label receives
`green_palette[i mod 8]`, and when at least 9 distinct labels occur the
9th receives the same colour as the 1st. -/
theorem C6_color_map (labels : List String) :
    ((_color_map labels).map Prod.fst = catsOf labels ∧ (catsOf labels).Nodup)
      ∧ (∀ i, i < (catsOf labels).length →
          (_color_map labels).getD i ("", "")
            = ((catsOf labels).getD i "",
               green_palette.getD (i % green_palette.length) ""))
      ∧ (9 ≤ (catsOf labels).length →
          ((_color_map labels).getD 8 ("", "")).2
            = ((_color_map labels).getD 0 ("", "")).2) := by
  refine ⟨⟨assignColors_map_fst _ 0, (uniqueFirst_nodup_and_fresh labels []).1⟩, ?_, ?_⟩
  · intro i hi
    have := assignColors_getD (catsOf labels) 0 i hi
    simpa [_color_map] using this
  · intro h9
    have h8 := assignColors_getD (catsOf labels) 0 8 (by omega)
    have h0 := assignColors_getD (catsOf labels) 0 0 (by omega)
    simp only [_color_map]
    rw [h8, h0]
    norm_num [green_palette]

/-- C6, witness: with nine distinct labels, the 9th distinct label and the
1st receive the same colour. -/
theorem C6_color_map_witness :
    ((_color_map ["a", "b", "c", "d", "e", "f", "g", "h", "i"]).getD 8 ("", "")).2
      = ((_color_map ["a", "b", "c", "d", "e", "f", "g", "h", "i"]).getD 0 ("", "")).2 :=
  (C6_color_map ["a", "b", "c", "d", "e", "f", "g", "h", "i"]).2.2 (by decide)

/-- C7: long-tail bucketing keeps every category whose count exceeds 1
(in order, with its count unchanged), and appends a single synthetic
`("Others", s)` row, where `s` is the summed count of the count-1
categories, exactly when that sum is positive; on
`{A:5, B:1, C:1, D:1}` the result is `{A:5, Others:3}`. -/
theorem C7_bucket (counts : List (String × ℕ)) :
    bucketOthers [("A", 5), ("B", 1), ("C", 1), ("D", 1)] = [("A", 5), ("Others", 3)]
      ∧ ((((counts.filter (fun p => p.2 == 1)).map Prod.snd).sum = 0 →
          bucketOthers counts = counts.filter (fun p => decide (1 < p.2)))
        ∧ (0 < ((counts.filter (fun p => p.2 == 1)).map Prod.snd).sum →
          bucketOthers counts
            = counts.filter (fun p => decide (1 < p.2))
              ++ [("Others", ((counts.filter (fun p => p.2 == 1)).map Prod.snd).sum)])) := by
  refine ⟨by decide, ?_, ?_⟩
  · intro h0
    simp only [bucketOthers]
    rw [h0]
    simp
  · intro hpos
    simp only [bucketOthers]
    rw [if_pos hpos]

/-- C7, witness: the positive-sum branch evaluated on the
`{A:5, B:1, C:1, D:1}` input (Others sum 3 > 0). -/
theorem C7_bucket_witness :
    bucketOthers [("A", 5), ("B", 1), ("C", 1), ("D", 1)]
      = [("A", 5), ("B", 1), ("C", 1), ("D", 1)].filter (fun p => decide (1 < p.2))
        ++ [("Others", (([("A", 5), ("B", 1), ("C", 1), ("D", 1)].filter
              (fun p => p.2 == 1)).map Prod.snd).sum)] :=
  (C7_bucket [("A", 5), ("B", 1), ("C", 1), ("D", 1)]).2.2 (by decide)

instance : IsTotal (String × ℚ) (fun a b => a.2 ≤ b.2) := ⟨fun a b => le_total a.2 b.2⟩

instance : IsTrans (String × ℚ) (fun a b => a.2 ≤ b.2) := ⟨fun _ _ _ h1 h2 => le_trans h1 h2⟩

theorem sortValuesDesc_sorted (rows : List (String × ℚ)) :
    (sortValuesDesc rows).Pairwise (fun a b : String × ℚ => b.2 ≤ a.2) := by
  unfold sortValuesDesc
  rw [List.pairwise_reverse]
  exact List.sorted_insertionSort _ rows

theorem sortValuesDesc_perm (rows : List (String × ℚ)) :
    (sortValuesDesc rows).Perm rows :=
  (List.reverse_perm _).trans (List.perm_insertionSort _ _)

theorem groupSumKeywords_mem (ps : List (String × ℚ)) (p : String × ℚ)
    (hp : p ∈ groupSumKeywords ps) :
    p.1 ∈ ps.map Prod.fst
      ∧ p.2 = ((ps.filter (fun q => q.1 == p.1)).map Prod.snd).sum := by
  obtain ⟨k, hk, rfl⟩ := List.mem_map.mp hp
  have : k ∈ (ps.map Prod.fst).dedup := ((List.perm_insertionSort strLe _).mem_iff).mp hk
  exact ⟨List.mem_dedup.mp this, rfl⟩

theorem groupSumKeywords_length (ps : List (String × ℚ)) :
    (groupSumKeywords ps).length = (ps.map Prod.fst).dedup.length := by
  unfold groupSumKeywords
  rw [List.length_map, List.length_insertionSort]

theorem groupSum_example :
    groupSumKeywords [("x", 1), ("y", 3), ("x", 2)] = [("x", 3), ("y", 3)] := by
  have hsorted : (((["x", "y", "x"] : List String).dedup).insertionSort strLe)
      = ["x", "y"] := by decide
  unfold groupSumKeywords
  rw [show ([("x", (1 : ℚ)), ("y", 3), ("x", 2)].map Prod.fst) = ["x", "y", "x"] from rfl,
      hsorted]
  simp +decide [List.filter_cons]
  norm_num

theorem specGroup_example :
    (uniqueFirst [] ([("x", (1 : ℚ)), ("y", 3), ("x", 2)].map Prod.fst)).map
        (fun k => (k, (([("x", (1 : ℚ)), ("y", 3), ("x", 2)].filter
            (fun p => p.1 == k)).map Prod.snd).sum))
      = [("x", 3), ("y", 3)] := by
  have hu : uniqueFirst [] ([("x", (1 : ℚ)), ("y", 3), ("x", 2)].map Prod.fst)
      = ["x", "y"] := by decide
  rw [hu]
  simp +decide [List.filter_cons]
  norm_num

/-- C3, counterexample: on the claim's own example the code's ranking
(pandas sorts ascending and reverses for a descending sort, so ties come
out in reversed grouped order) yields `[("y",3),("x",3)]`, while the
claim's stated rule — group in first-encounter order, stable descending
sort with ties broken by first-encountered key — yields
`[("x",3),("y",3)]`: the rule part of the claim contradicts the code. -/
theorem C3_counterexample :
    topNKeywords 2 [("x", 1), ("y", 3), ("x", 2)] = [("y", 3), ("x", 3)]
      ∧ topNKeywordsSpec 2 [("x", 1), ("y", 3), ("x", 2)] = [("x", 3), ("y", 3)]
      ∧ ([(("y" : String), (3 : ℚ)), ("x", 3)] ≠ [(("x" : String), (3 : ℚ)), ("y", 3)]) := by
  refine ⟨?_, ?_, by decide⟩
  · unfold topNKeywords
    rw [groupSum_example]
    decide
  · unfold topNKeywordsSpec
    rw [specGroup_example]
    decide

/-- C3 (amended): the top-N keyword ranking groups (key, weight) pairs by
key summing weights, sorts descending by summed weight — pandas argsorts
ascending and reverses, so ties come out in reversed grouped
(ascending-key) order, not first-encounter order — and returns the first
N; every returned pair carries the total weight of its key, keys are as
many as `min N (number of distinct keys)`, the output is sorted by
descending summed weight, and the example input yields
`[("y",3),("x",3)]`. -/
theorem C3_topN (n : ℕ) (ps : List (String × ℚ)) :
    topNKeywords 2 [("x", 1), ("y", 3), ("x", 2)] = [("y", 3), ("x", 3)]
      ∧ (topNKeywords n ps).Pairwise (fun a b : String × ℚ => b.2 ≤ a.2)
      ∧ (∀ p ∈ topNKeywords n ps,
          p.1 ∈ ps.map Prod.fst
            ∧ p.2 = ((ps.filter (fun q => q.1 == p.1)).map Prod.snd).sum)
      ∧ (topNKeywords n ps).length = min n (ps.map Prod.fst).dedup.length := by
  refine ⟨?_, ?_, ?_, ?_⟩
  · unfold topNKeywords
    rw [groupSum_example]
    decide
  · exact List.Pairwise.sublist (List.take_sublist n _)
      (sortValuesDesc_sorted (groupSumKeywords ps))
  · intro p hp
    have h1 : p ∈ sortValuesDesc (groupSumKeywords ps) :=
      (List.take_sublist n _).mem hp
    have h2 : p ∈ groupSumKeywords ps :=
      (sortValuesDesc_perm (groupSumKeywords ps)).mem_iff.mp h1
    exact groupSumKeywords_mem ps p h2
  · unfold topNKeywords
    rw [List.length_take]
    unfold sortValuesDesc
    rw [List.length_reverse, List.length_insertionSort, groupSumKeywords_length]

/-- C3, witness: the amended ranking evaluated on the example input — the
pair `("y", 3)` really is in the top 2 and carries the summed weight of
key `"y"`. -/
theorem C3_topN_witness :
    (("y", (3 : ℚ)) ∈ topNKeywords 2 [("x", 1), ("y", 3), ("x", 2)])
      ∧ (("y", (3 : ℚ)).2 = (([("x", (1 : ℚ)), ("y", 3), ("x", 2)].filter
          (fun q => q.1 == ("y", (3 : ℚ)).1)).map Prod.snd).sum) := by
  have hmem : ("y", (3 : ℚ)) ∈ topNKeywords 2 [("x", 1), ("y", 3), ("x", 2)] := by
    have := (C3_topN 2 [("x", 1), ("y", 3), ("x", 2)]).1
    rw [this]
    simp
  exact ⟨hmem, ((C3_topN 2 [("x", 1), ("y", 3), ("x", 2)]).2.2.1 ("y", 3) hmem).2⟩
